import Mathlib

/-!
# ToneGrab — verification of the downloader core against its specification

Shallow embedding of the parts of the ToneGrab repository that the claims
touch:

* `src/utils/helpers.py` — `sanitize_filename`
* `src/core/downloader.py` — `DownloadResult`, `DownloadOptions.to_ydl_opts`,
  `YtDlpDownloadStrategy.download` (error classification),
  `AudioDownloader.download`, `AudioDownloader.download_playlist`
* `src/ui/download_worker.py` — `DownloadWorker._download_single` (retry loop),
  `_smooth_progress_update`, `_progress_hook`, `_format_eta`,
  `_playlist_item_callback`

Modelling conventions:

* Python strings are Lean `String` (a `structure` holding `data : List Char`);
  character-level work happens on `List Char`.
* Python float values are modelled exactly as unnormalized fractions
  `PyFloat` with an integer numerator and a natural denominator; all
  arithmetic used by the code (division, comparison, truncation, rounding)
  is exact on those fractions.
* Python exceptions are explicit datatype constructors; `try/except` blocks
  become pattern matches, and a function that can propagate an exception
  returns `Except`.
* `dict.get` of an optional field is an `Option`; Python truthiness of a
  string (`None` and `""` are falsy) is `strTruthy`.
-/

/-! ## Character and string primitives -/

/-- The characters removed by `sanitize_filename` and replaced by
`download_playlist` (the regex class in both files). -/
def invalidChar (c : Char) : Bool :=
  c == '<' || c == '>' || c == ':' || c == '"' || c == '/' ||
  c == '\\' || c == '|' || c == '?' || c == '*'

/-- ASCII whitespace as matched by the regex class in
`sanitize_filename` (Python also matches further Unicode whitespace;
the claims only involve ASCII inputs). -/
def pyIsSpace (c : Char) : Bool :=
  c == ' ' || c == '\t' || c == '\n' || c == '\r' ||
  c == '\x0b' || c == '\x0c'

/-- `pat` is a leading segment of `s`. -/
def isSubAt : List Char → List Char → Bool
  | [], _ => true
  | _ :: _, [] => false
  | p :: ps, c :: cs => p == c && isSubAt ps cs

/-- Python's `pat in s` on strings: `pat` occurs contiguously in `s`. -/
def hasSub (pat : List Char) : List Char → Bool
  | [] => isSubAt pat []
  | c :: rest => isSubAt pat (c :: rest) || hasSub pat rest

/-- Python `str.lower()` (ASCII case fold; the tokens checked by the code
are ASCII). -/
def lowerList (s : List Char) : List Char := s.map Char.toLower

def strTruthy : Option String → Bool
  | none => false
  | some s => s ≠ ""

/-! ## `sanitize_filename` (src/utils/helpers.py lines 6-23) -/

/-- First pass: `re.sub(r'[<>:"/\\|?*]', "", filename)`. -/
def removeInvalid (s : List Char) : List Char :=
  s.filter (fun c => !invalidChar c)

/-- Second pass: `re.sub(r"\s+", " ", filename)` — every maximal run of
whitespace becomes one space.  The flag records whether the previous
character was part of a whitespace run. -/
def collapseWsAux : Bool → List Char → List Char
  | _, [] => []
  | prevWs, c :: rest =>
    if pyIsSpace c then
      if prevWs then collapseWsAux true rest
      else ' ' :: collapseWsAux true rest
    else c :: collapseWsAux false rest

def collapseWs (s : List Char) : List Char := collapseWsAux false s

/-- Third pass: `filename.strip()`. -/
def pyStrip (s : List Char) : List Char :=
  ((s.dropWhile pyIsSpace).reverse.dropWhile pyIsSpace).reverse

def sanitizeCore (s : List Char) : List Char :=
  let r := pyStrip (collapseWs (removeInvalid s))
  if r = [] then "untitled".data else r

/-- `sanitize_filename` from src/utils/helpers.py. -/
def sanitize_filename (s : String) : String := ⟨sanitizeCore s.data⟩

/-! Properties asserted by the spec about sanitized names, as executable
predicates. -/

/-- No two adjacent whitespace characters. -/
def noAdjacentWs : List Char → Bool
  | [] => true
  | [_] => true
  | a :: b :: rest => !(pyIsSpace a && pyIsSpace b) && noAdjacentWs (b :: rest)

/-- Every whitespace character is a plain space. -/
def wsOnlySpace (s : List Char) : Bool := s.all (fun c => !pyIsSpace c || c == ' ')

def headNotWs (s : List Char) : Bool :=
  match s with
  | [] => true
  | c :: _ => !pyIsSpace c

def lastNotWs (s : List Char) : Bool := headNotWs s.reverse

def noInvalid (s : List Char) : Bool := s.all (fun c => !invalidChar c)

/-! ## Exact model of Python float values

Every value the code obtains from a float computation is modelled as an
exact fraction `num / den`.  All operations the code performs on these
values (comparison with constants, truncation by `int(...)`, banker's
rounding by `round(...)`) are defined exactly; denominators are positive at
every reachable use site because the code guards each division. -/

structure PyFloat where
  num : Int
  den : Nat
  deriving DecidableEq, Repr

def PyFloat.ofNat (n : Nat) : PyFloat := ⟨n, 1⟩

/-- value is zero (`x == 0` in Python, for positive `den`). -/
def PyFloat.isZero (f : PyFloat) : Bool := f.num == 0

/-- `x > 0` in Python (for positive `den`). -/
def PyFloat.isPos (f : PyFloat) : Bool := 0 < f.num

/-- `x > 1` in Python (for positive `den`). -/
def PyFloat.gtOne (f : PyFloat) : Bool := (f.den : Int) < f.num

/-- `x <= 100` (for positive `den`). -/
def PyFloat.le100 (f : PyFloat) : Bool := f.num ≤ 100 * (f.den : Int)

/-- Python `int(x)`: truncation toward zero. -/
def PyFloat.trunc (f : PyFloat) : Int :=
  if 0 ≤ f.num then (f.num.toNat / f.den : Nat)
  else -((f.num.natAbs / f.den : Nat) : Int)

/-- Python `round(x)` to an integer: nearest, ties to even. -/
def PyFloat.pyRound (f : PyFloat) : Int :=
  let fl := Int.fdiv f.num (f.den : Int)
  let rNum := f.num - fl * (f.den : Int)
  if 2 * rNum < (f.den : Int) then fl
  else if (f.den : Int) < 2 * rNum then fl + 1
  else if fl % 2 = 0 then fl else fl + 1

/-! ## Integer formatting helpers -/

/-- Python `f"{n:02d}"` for a natural number. -/
def pad2 (n : Nat) : String := if n < 10 then "0" ++ toString n else toString n

/-- Python `f"{n:03d}"` for a natural number. -/
def pad3 (n : Nat) : String :=
  if n < 10 then "00" ++ toString n
  else if n < 100 then "0" ++ toString n
  else toString n

/-! ## `DownloadResult` (src/core/downloader.py lines 100-115) -/

structure DownloadResult where
  success : Bool
  filePath : Option String := none
  errorMessage : Option String := none
  deriving DecidableEq, Repr

def DownloadResult.successResult (filePath : String) : DownloadResult :=
  ⟨true, some filePath, none⟩

def DownloadResult.failureResult (error : String) : DownloadResult :=
  ⟨false, none, some error⟩

/-! ## Output templates (src/core/downloader.py lines 137-150 and 568-583)

`DownloadOptions.to_ydl_opts` builds the `outtmpl` string.  Paths are
joined with "/" (the POSIX rendering of `pathlib.Path`). -/

/-- The `outtmpl` computed by `DownloadOptions.to_ydl_opts`
(src/core/downloader.py lines 139-150).  `playlistTitle` is subject to
Python truthiness: `None` and `""` both select the single-video template. -/
def ydlOutputTemplate (outputDir : String) (playlistTitle : Option String)
    (playlistIndex : Option Nat) : String :=
  if strTruthy playlistTitle then
    match playlistIndex with
    | some i =>
      outputDir ++ "/" ++ playlistTitle.getD "" ++ "/" ++ pad3 i ++ " - %(title)s.%(ext)s"
    | none =>
      outputDir ++ "/" ++ playlistTitle.getD "" ++ "/%(playlist_index)03d - %(title)s.%(ext)s"
  else outputDir ++ "/%(title)s.%(ext)s"

/-- The sanitization `download_playlist` applies to the playlist title
before using it as a directory name (src/core/downloader.py line 572):
`re.sub(r'[<>:"/\\|?*]', '_', playlist_title)` — each forbidden character
is replaced by an underscore. -/
def underscoreSanitize (s : String) : String :=
  ⟨s.data.map (fun c => if invalidChar c then '_' else c)⟩

/-- The per-item output template built inside `download_playlist`
(src/core/downloader.py lines 568-583): the playlist title from the
metadata (default `'Playlist'`), underscore-sanitized, with the 1-based
item index. -/
def playlistItemTemplate (outputDir : String) (infoTitle : Option String)
    (idx : Nat) : String :=
  ydlOutputTemplate outputDir (some (underscoreSanitize (infoTitle.getD "Playlist"))) (some idx)

/-- Modelled from the spec (§3, §4.2): the spec's output-path invariant
`outputDir/sanitize(playlistTitle)/{index:03d} - title.ext` where
`sanitize` is the §3 rule (`sanitize_filename`).  Used only to compare the
spec's template against the one the code builds. -/
def specItemTemplate (outputDir : String) (rawTitle : String) (idx : Nat) : String :=
  outputDir ++ "/" ++ sanitize_filename rawTitle ++ "/" ++ pad3 idx ++ " - %(title)s.%(ext)s"

/-- Replace the first occurrence of `pat` in `s` by `rep`. -/
def replaceFirst (pat rep : List Char) : List Char → List Char
  | [] => []
  | c :: rest =>
    if isSubAt pat (c :: rest) then rep ++ (c :: rest).drop pat.length
    else c :: replaceFirst pat rep rest

/-- Instantiate the yt-dlp placeholders of an output template with a
concrete title and extension. -/
def renderTemplate (tmpl title ext : String) : String :=
  ⟨replaceFirst "%(ext)s".data ext.data (replaceFirst "%(title)s".data title.data tmpl.data)⟩

/-! ## Error classification (src/core/downloader.py lines 299-324)

`YtDlpDownloadStrategy.download` wraps any non-cancellation exception into
a `DownloadError` whose message classifies the raw error text. -/

def corruptSourceMessage : String :=
  "Audio conversion failed. The downloaded file may be corrupted or incomplete. " ++
  "This can happen if the download was interrupted or if there's an issue with the source."

def probeFailureMessage : String :=
  "Failed to analyze audio file. This might be a temporary issue with the source. " ++
  "Try downloading again or try a different video/audio source."

/-- The message of the `DownloadError` raised by
`YtDlpDownloadStrategy.download` for a raw error text
(src/core/downloader.py lines 312-324). -/
def classifyTransferError (raw : String) : String :=
  if hasSub "Invalid data found".data raw.data || hasSub "Error opening input".data raw.data then
    corruptSourceMessage
  else if hasSub "unable to obtain file audio codec".data raw.data ||
      hasSub "ffprobe".data (lowerList raw.data) then
    probeFailureMessage
  else "Download failed: " ++ raw

/-! ## Strategy outcomes and `AudioDownloader.download`
(src/core/downloader.py lines 409-465) -/

/-- Behaviour of one call into the download strategy: a returned path
(possibly `None`), a raised `DownloadError`, or any other raised
`Exception` with its type name and message (`yt_dlp.utils.DownloadCancelled`
is `raiseExc "DownloadCancelled" msg`). -/
inductive StratOutcome where
  | ok (path : Option String)
  | raiseDownloadError (msg : String)
  | raiseExc (typeName msg : String)
  deriving DecidableEq, Repr

/-- The cancellation test of the generic `except Exception` handlers
(src/core/downloader.py lines 463 and 600):
`"DownloadCancelled" in str(type(e).__name__) or "cancelled" in str(e).lower()`. -/
def isCancellationExc (typeName msg : String) : Bool :=
  hasSub "DownloadCancelled".data typeName.data ||
  hasSub "cancelled".data (lowerList msg.data)

/-- `AudioDownloader.download` (src/core/downloader.py lines 409-465),
as a function of the strategy call's outcome.  An `Except.error` value
would mean an exception escapes the method; every branch below is caught,
so the result is always `Except.ok`. -/
def audioDownloaderDownload (o : StratOutcome) : Except String DownloadResult :=
  match o with
  | .ok (some fp) =>
    if fp ≠ "" then .ok (DownloadResult.successResult fp)
    else .ok (DownloadResult.failureResult "Download returned no file")
  | .ok none => .ok (DownloadResult.failureResult "Download returned no file")
  | .raiseDownloadError m => .ok (DownloadResult.failureResult m)
  | .raiseExc ty m =>
    if isCancellationExc ty m then
      .ok (DownloadResult.failureResult "Download cancelled by user")
    else .ok (DownloadResult.failureResult ("Unexpected error: " ++ m))

/-! ## `AudioDownloader.download_playlist` (src/core/downloader.py lines 500-611)

The loop is driven by the resolved metadata, a per-item strategy outcome,
and the state of the worker's stop flag at each item-start callback
(`DownloadWorker._playlist_item_callback` raises
`yt_dlp.utils.DownloadCancelled` when `_stop_requested` is set,
src/ui/download_worker.py lines 261-266). -/

structure PlEntry where
  webpageUrl : Option String := none
  url : Option String := none
  id : Option String := none
  title : Option String := none
  deriving DecidableEq, Repr

structure PlaylistInfo where
  typeTag : Option String := none
  title : Option String := none
  entries : List (Option PlEntry) := []
  deriving DecidableEq, Repr

/-- Python `a or b` on two optional strings (`None` and `""` are falsy). -/
def pyOrStr (a b : Option String) : Option String :=
  if strTruthy a then a else b

/-- `entry.get('webpage_url') or entry.get('url') or entry.get('id')`
(src/core/downloader.py line 550). -/
def entryUrlOf (e : PlEntry) : Option String :=
  pyOrStr e.webpageUrl (pyOrStr e.url e.id)

/-- `entry.get('id', f'unknown_{idx}')` (src/core/downloader.py line 552). -/
def entryIdOf (e : PlEntry) (idx : Nat) : String :=
  e.id.getD ("unknown_" ++ toString idx)

/-- URL synthesis for bare ids (src/core/downloader.py lines 559-562). -/
def resolveEntryUrl (playlistUrl : String) (e : PlEntry) (idx : Nat) (u : String) : String :=
  let eid := entryIdOf e idx
  if u = eid && hasSub "youtube.com".data playlistUrl.data then
    "https://www.youtube.com/watch?v=" ++ eid
  else if u = eid && hasSub "youtu.be".data playlistUrl.data then
    "https://www.youtube.com/watch?v=" ++ eid
  else u

/-- How processing of the entry loop ends: `finished` is normal completion
or the `break` on a mid-transfer cancellation; `aborted` is an exception
escaping the loop (raised by the item callback), which discards the
accumulated results and reaches the enclosing `except` clause. -/
inductive LoopOut where
  | finished (results : List DownloadResult) (dispatched : List (Nat × String))
  | aborted (msg : String) (dispatched : List (Nat × String))
  deriving DecidableEq, Repr

def LoopOut.consResult (r : DownloadResult) : LoopOut → LoopOut
  | .finished rs d => .finished (r :: rs) d
  | .aborted m d => .aborted m d

def LoopOut.consDispatch (i : Nat × String) : LoopOut → LoopOut
  | .finished rs d => .finished rs (i :: d)
  | .aborted m d => .aborted m (i :: d)

/-- The per-entry loop of `download_playlist` (src/core/downloader.py
lines 544-606).  `outcomes k` is the behaviour of the strategy call for
item `k`; `stopAt k` is the worker's `_stop_requested` flag when item `k`'s
start callback runs; `useCallback` records whether an `item_callback` was
supplied. -/
def runItems (playlistUrl : String) (outcomes : Nat → StratOutcome)
    (stopAt : Nat → Bool) (useCallback : Bool) :
    Nat → List (Option PlEntry) → LoopOut
  | _, [] => .finished [] []
  | idx, none :: rest =>
    LoopOut.consResult
      (DownloadResult.failureResult ("Item " ++ toString idx ++ ": Invalid entry"))
      (runItems playlistUrl outcomes stopAt useCallback (idx + 1) rest)
  | idx, some e :: rest =>
    match entryUrlOf e with
    | u0 =>
      if strTruthy u0 then
        let u := resolveEntryUrl playlistUrl e idx (u0.getD "")
        if useCallback && stopAt idx then
          .aborted "Playlist download cancelled by user" []
        else
          match outcomes idx with
          | .ok p =>
            let r := if strTruthy p then DownloadResult.successResult (p.getD "")
              else DownloadResult.failureResult "Download returned no file"
            LoopOut.consResult r (LoopOut.consDispatch (idx, u)
              (runItems playlistUrl outcomes stopAt useCallback (idx + 1) rest))
          | .raiseDownloadError m =>
            LoopOut.consResult (DownloadResult.failureResult m) (LoopOut.consDispatch (idx, u)
              (runItems playlistUrl outcomes stopAt useCallback (idx + 1) rest))
          | .raiseExc ty m =>
            if isCancellationExc ty m then
              .finished [DownloadResult.failureResult "Download cancelled by user"] [(idx, u)]
            else
              LoopOut.consResult
                (DownloadResult.failureResult ("Unexpected error: " ++ m))
                (LoopOut.consDispatch (idx, u)
                  (runItems playlistUrl outcomes stopAt useCallback (idx + 1) rest))
      else
        LoopOut.consResult
          (DownloadResult.failureResult ("Item " ++ toString idx ++ ": No URL found"))
          (runItems playlistUrl outcomes stopAt useCallback (idx + 1) rest)

/-- `AudioDownloader.download_playlist` (src/core/downloader.py lines
500-611): metadata pre-checks, then the entry loop; an exception escaping
the loop is caught by the enclosing `except` and folded into a
single-element failure list.  Returns the result list and, for each item
actually dispatched to the strategy, its 1-based index and resolved URL. -/
def downloadPlaylist (playlistUrl : String) (info : Option PlaylistInfo)
    (outcomes : Nat → StratOutcome) (stopAt : Nat → Bool) (useCallback : Bool) :
    List DownloadResult × List (Nat × String) :=
  match info with
  | none => ([DownloadResult.failureResult "URL is not a playlist"], [])
  | some i =>
    if i.typeTag ≠ some "playlist" then
      ([DownloadResult.failureResult "URL is not a playlist"], [])
    else if i.entries.length = 0 then
      ([DownloadResult.failureResult "Playlist is empty"], [])
    else
      match runItems playlistUrl outcomes stopAt useCallback 1 i.entries with
      | .finished rs d => (rs, d)
      | .aborted m d =>
        ([DownloadResult.failureResult ("Playlist download failed: " ++ m)], d)

/-- The folding of one valid, dispatched item's strategy outcome into its
`DownloadResult` (the inner `try/except` of src/core/downloader.py lines
591-605, non-cancellation cases). -/
def itemOutcomeResult (o : StratOutcome) : DownloadResult :=
  match o with
  | .ok p =>
    if strTruthy p then DownloadResult.successResult (p.getD "")
    else DownloadResult.failureResult "Download returned no file"
  | .raiseDownloadError m => DownloadResult.failureResult m
  | .raiseExc _ m => DownloadResult.failureResult ("Unexpected error: " ++ m)

/-- The `DownloadResult` recorded for the entry at 1-based index `idx` when
no cancellation occurs: the per-position folding of the claim (invalid
entry, missing URL, or the dispatched outcome). -/
def itemResult (idx : Nat) (eo : Option PlEntry) (o : StratOutcome) : DownloadResult :=
  match eo with
  | none => DownloadResult.failureResult ("Item " ++ toString idx ++ ": Invalid entry")
  | some e =>
    if strTruthy (entryUrlOf e) then itemOutcomeResult o
    else DownloadResult.failureResult ("Item " ++ toString idx ++ ": No URL found")

/-- `outcomes idx` is not an exception that the inner handler treats as a
cancellation. -/
def notCancelOutcome (o : StratOutcome) : Bool :=
  match o with
  | .raiseExc ty m => !isCancellationExc ty m
  | _ => true

/-- The result list a cancellation-free playlist run should produce: one
`itemResult` per entry, in entry order, indices counted from `start`. -/
def expectedResults (oc : Nat → StratOutcome) : Nat → List (Option PlEntry) → List DownloadResult
  | _, [] => []
  | idx, eo :: rest => itemResult idx eo (oc idx) :: expectedResults oc (idx + 1) rest

/-! ## The worker retry loop (src/ui/download_worker.py lines 134-158) -/

/-- The retry test of `DownloadWorker._download_single`
(src/ui/download_worker.py lines 148-152): the attempt failed, its error
message is truthy, and the lower-cased message contains
`"unable to obtain file audio codec"` or `"ffprobe"`. -/
def retryableResult (r : DownloadResult) : Bool :=
  !r.success &&
    (match r.errorMessage with
     | none => false
     | some m =>
       m ≠ "" &&
         (hasSub "unable to obtain file audio codec".data (lowerList m.data) ||
          hasSub "ffprobe".data (lowerList m.data)))

/-- The status line emitted before a retry, where `rc` is the new value of
`retry_count` (src/ui/download_worker.py line 154). -/
def retryStatus (rc : Nat) : String :=
  "⚠️ Temporary error detected. Retrying... (attempt " ++ toString (rc + 1) ++ "/3)"

/-- The `while` loop of `_download_single` with `max_retries = 2`:
`attempt k` is the result of the `k`-th call (0-based) into
`AudioDownloader.download`; `fuel = max_retries - retry_count`.  Returns
the final result, the number of calls made, and the emitted retry status
lines. -/
def retryGo (attempt : Nat → DownloadResult) : Nat → Nat → DownloadResult × Nat × List String
  | rc, 0 => (attempt rc, rc + 1, [])
  | rc, fuel + 1 =>
    let r := attempt rc
    if retryableResult r then
      let (res, n, sts) := retryGo attempt (rc + 1) fuel
      (res, n, retryStatus (rc + 1) :: sts)
    else (r, rc + 1, [])

/-- The whole retry loop of `DownloadWorker._download_single`
(src/ui/download_worker.py lines 135-158). -/
def downloadSingleRetry (attempt : Nat → DownloadResult) : DownloadResult × Nat × List String :=
  retryGo attempt 0 2

/-! ## Progress events, smoothing and ETA
(src/ui/download_worker.py lines 232-259, 276-368, 410-437) -/

/-- One raw yt-dlp progress event as consumed by
`DownloadWorker._progress_hook`.  `percentStr` is the parsed value of
`_percent_str` after ANSI stripping (`none` when absent or unparsable);
byte and fragment counters default to 0 when missing; `speed` is the
`speed` field (`None` or a float). -/
inductive RawEvent where
  | downloading (percentStr : Option PyFloat) (downloadedBytes : Nat)
      (totalBytes : Option Nat) (totalBytesEstimate : Nat)
      (fragmentIndex : Nat) (fragmentCount : Nat) (speed : Option PyFloat)
  | finished
  | otherStatus
  deriving DecidableEq, Repr

/-- `d.get("total_bytes") or d.get("total_bytes_estimate", 0)`
(src/ui/download_worker.py lines 303 and 320): `None` and `0` fall back to
the estimate. -/
def pyTotal (totalBytes : Option Nat) (est : Nat) : Nat :=
  match totalBytes with
  | some t => if t ≠ 0 then t else est
  | none => est

/-- The three-way percent derivation of `_progress_hook`
(src/ui/download_worker.py lines 289-312): explicit percent string, else
`downloaded/total*100`, else `fragment_index/fragment_count*100`; each
later method applies only while the value is still `0`. -/
def derivePercent (percentStr : Option PyFloat) (downloaded total fi fc : Nat) : PyFloat :=
  let p1 : PyFloat := match percentStr with
    | some q => q
    | none => ⟨0, 1⟩
  let p2 : PyFloat :=
    if p1.isZero then (if 0 < total then ⟨(downloaded : Int) * 100, total⟩ else ⟨0, 1⟩)
    else p1
  if p2.isZero then (if 0 < fc then ⟨(fi : Int) * 100, fc⟩ else ⟨0, 1⟩)
  else p2

/-- Mutable worker state used by the progress path:
`_last_progress`, `_last_progress_time`, `_last_status_time`
(src/ui/download_worker.py lines 49-53). -/
structure ProgState where
  lastProgress : Int
  lastProgressTime : PyFloat
  lastStatusTime : PyFloat
  deriving Repr

def initProgState : ProgState := ⟨0, ⟨0, 1⟩, ⟨0, 1⟩⟩

/-- `a - b` on float values. -/
def pfSub (a b : PyFloat) : PyFloat := ⟨a.num * b.den - b.num * a.den, a.den * b.den⟩

/-- `a < b` on float values (for positive denominators). -/
def pfLt (a b : PyFloat) : Bool := a.num * b.den < b.num * a.den

/-- Python `int((a + b) / 2)` for integers `a`, `b`: true division then
truncation toward zero. -/
def truncHalf (x : Int) : Int :=
  if 0 ≤ x then ((x.toNat / 2 : Nat) : Int) else -(((x.natAbs / 2 : Nat) : Int))

/-- The smoothed value of `_smooth_progress_update`
(src/ui/download_worker.py lines 245-253): a jump of more than 20 points
from a positive last value is averaged (Python `int((a + b) / 2)`). -/
def smoothedTarget (st : ProgState) (newP : Int) : Int :=
  if 0 < st.lastProgress && 20 < (newP - st.lastProgress).natAbs then
    truncHalf (st.lastProgress + newP)
  else newP

/-- `DownloadWorker._smooth_progress_update`
(src/ui/download_worker.py lines 232-259): rate limit, smoothing of jumps
over 20 points, and the monotonicity gate; returns the new state and the
emitted percent, if any. -/
def smoothProgressUpdate (st : ProgState) (t : PyFloat) (newP : Int) :
    ProgState × Option Int :=
  if pfLt (pfSub t st.lastProgressTime) ⟨1, 10⟩ && (newP - st.lastProgress).natAbs < 5 then
    (st, none)
  else if st.lastProgress ≤ smoothedTarget st newP then
    ({ st with lastProgress := smoothedTarget st newP, lastProgressTime := t },
      some (smoothedTarget st newP))
  else (st, none)

/-- The progress part of a `downloading` event
(src/ui/download_worker.py lines 289-316): derive a percent and feed it to
the smoother only when positive. -/
def downloadStep (st : ProgState) (t : PyFloat) (ps : Option PyFloat)
    (d : Nat) (tb : Option Nat) (est fi fc : Nat) : ProgState × Option Int :=
  if (derivePercent ps d (pyTotal tb est) fi fc).isPos then
    smoothProgressUpdate st t (derivePercent ps d (pyTotal tb est) fi fc).trunc
  else (st, none)

/-- The status-text throttle (src/ui/download_worker.py lines 326-330):
it only advances `_last_status_time`. -/
def statusThrottle (st : ProgState) (t : PyFloat) : ProgState :=
  if pfLt (pfSub t st.lastStatusTime) ⟨1, 2⟩ then st
  else { st with lastStatusTime := t }

/-- One step of `DownloadWorker._progress_hook` at wall-clock time `t`,
restricted to its effect on the progress signal and the worker state.  A
`finished` event emits 100 directly (line 368) without touching
`_last_progress`. -/
def processEvent (st : ProgState) (t : PyFloat) (ev : RawEvent) : ProgState × List Int :=
  match ev with
  | .downloading ps d tb est fi fc _ =>
    (statusThrottle (downloadStep st t ps d tb est fi fc).1 t,
      (downloadStep st t ps d tb est fi fc).2.toList)
  | .finished => (st, [100])
  | .otherStatus => (st, [])

/-- Process a timed event sequence, concatenating the emitted percents. -/
def processEvents (st : ProgState) : List (PyFloat × RawEvent) → ProgState × List Int
  | [] => (st, [])
  | (t, ev) :: rest =>
    ((processEvents (processEvent st t ev).1 rest).1,
      (processEvent st t ev).2 ++ (processEvents (processEvent st t ev).1 rest).2)

def nonDecr : List Int → Bool
  | [] => true
  | [_] => true
  | a :: b :: rest => a ≤ b && nonDecr (b :: rest)

/-- The list is non-decreasing and its first element is at least `lo`. -/
def nonDecrFrom (lo : Int) : List Int → Bool
  | [] => true
  | a :: rest => lo ≤ a && nonDecrFrom a rest

def allInRange (l : List Int) : Bool := l.all (fun v => 0 ≤ v && v ≤ 100)

def isDownloadingEvent : RawEvent → Bool
  | .downloading .. => true
  | _ => false

/-- The percent the hook would derive for the event is at most 100
(vacuous for non-downloading events). -/
def eventPercentLe100 : RawEvent → Bool
  | .downloading ps d tb est fi fc _ => (derivePercent ps d (pyTotal tb est) fi fc).le100
  | _ => true

/-! ### ETA (src/ui/download_worker.py lines 332-341 and 410-437) -/

/-- `remaining_bytes / speed_bytes` as an exact fraction (meaningful when
`speed` is positive). -/
def etaValue (speed : PyFloat) (total downloaded : Nat) : PyFloat :=
  ⟨((total : Int) - (downloaded : Int)) * (speed.den : Int), speed.num.toNat⟩

/-- `DownloadWorker._format_eta` (src/ui/download_worker.py lines 410-437):
`total_seconds = int(round(seconds))`, plain seconds under a minute, then
`minutes = total_seconds // 60`, `secs = total_seconds % 60`, `MM:SS` under
an hour, `HH:MM:SS` otherwise. -/
def formatEta (q : PyFloat) : String :=
  if q.num ≤ 0 then "0s"
  else if q.pyRound.toNat < 60 then toString q.pyRound.toNat ++ "s"
  else if q.pyRound.toNat / 60 < 60 then
    pad2 (q.pyRound.toNat / 60) ++ ":" ++ pad2 (q.pyRound.toNat % 60)
  else
    pad2 (q.pyRound.toNat / 60 / 60) ++ ":" ++ pad2 (q.pyRound.toNat / 60 % 60) ++ ":" ++
      pad2 (q.pyRound.toNat % 60)

/-- The ETA display decision of `_progress_hook`
(src/ui/download_worker.py lines 332-341): computed only when speed, total
and downloaded are all positive; over one second uses `_format_eta`, in
`(0, 1]` shows `"< 1s"`, otherwise nothing. -/
def etaDisplay (speed : Option PyFloat) (total downloaded : Nat) : Option String :=
  match speed with
  | none => none
  | some s =>
    if s.isPos && 0 < total && 0 < downloaded then
      let eta := etaValue s total downloaded
      if eta.gtOne then some (formatEta eta)
      else if eta.isPos then some "< 1s"
      else none
    else none

/-- The ETA display for a raw event (fields as read at
src/ui/download_worker.py lines 319-321). -/
def eventEtaDisplay : RawEvent → Option String
  | .downloading _ d tb est _ _ speed => etaDisplay speed (pyTotal tb est) d
  | _ => none

/-! # Lemmas -/

/-! ## `sanitize_filename` -/

lemma mem_removeInvalid {c : Char} {s : List Char} (h : c ∈ removeInvalid s) :
    invalidChar c = false := by
  rcases List.mem_filter.mp h with ⟨-, h2⟩
  simpa using h2

lemma collapseWsAux_false_ws {a : Char} {rest : List Char} (ha : pyIsSpace a = true) :
    collapseWsAux false (a :: rest) = ' ' :: collapseWsAux true rest := by
  simp [collapseWsAux, ha]

lemma collapseWsAux_true_ws {a : Char} {rest : List Char} (ha : pyIsSpace a = true) :
    collapseWsAux true (a :: rest) = collapseWsAux true rest := by
  simp [collapseWsAux, ha]

lemma collapseWsAux_notWs {b : Bool} {a : Char} {rest : List Char}
    (ha : pyIsSpace a = false) :
    collapseWsAux b (a :: rest) = a :: collapseWsAux false rest := by
  simp [collapseWsAux, ha]

lemma mem_collapseWsAux {c : Char} :
    ∀ (b : Bool) (s : List Char), c ∈ collapseWsAux b s → c ∈ s ∨ c = ' '
  | _, [], h => by simp [collapseWsAux] at h
  | b, a :: rest, h => by
    rcases hws : pyIsSpace a with _ | _
    · rw [collapseWsAux_notWs hws] at h
      rcases List.mem_cons.mp h with h | h
      · exact Or.inl (h ▸ List.mem_cons_self _ _)
      · rcases mem_collapseWsAux false rest h with h | h
        · exact Or.inl (List.mem_cons_of_mem _ h)
        · exact Or.inr h
    · cases b
      · rw [collapseWsAux_false_ws hws] at h
        rcases List.mem_cons.mp h with h | h
        · exact Or.inr h
        · rcases mem_collapseWsAux true rest h with h | h
          · exact Or.inl (List.mem_cons_of_mem _ h)
          · exact Or.inr h
      · rw [collapseWsAux_true_ws hws] at h
        rcases mem_collapseWsAux true rest h with h | h
        · exact Or.inl (List.mem_cons_of_mem _ h)
        · exact Or.inr h

lemma mem_collapseWsAux_space {c : Char} :
    ∀ (b : Bool) (s : List Char), c ∈ collapseWsAux b s → pyIsSpace c = true → c = ' '
  | _, [], h, _ => by simp [collapseWsAux] at h
  | b, a :: rest, h, hws => by
    rcases ha : pyIsSpace a with _ | _
    · rw [collapseWsAux_notWs ha] at h
      rcases List.mem_cons.mp h with h | h
      · subst h; rw [ha] at hws; exact absurd hws (by simp)
      · exact mem_collapseWsAux_space false rest h hws
    · cases b
      · rw [collapseWsAux_false_ws ha] at h
        rcases List.mem_cons.mp h with h | h
        · exact h
        · exact mem_collapseWsAux_space true rest h hws
      · rw [collapseWsAux_true_ws ha] at h
        exact mem_collapseWsAux_space true rest h hws

lemma headNotWs_collapseWsAux_true :
    ∀ s : List Char, headNotWs (collapseWsAux true s) = true
  | [] => rfl
  | a :: rest => by
    rcases ha : pyIsSpace a with _ | _
    · rw [collapseWsAux_notWs ha]
      simp [headNotWs, ha]
    · rw [collapseWsAux_true_ws ha]
      exact headNotWs_collapseWsAux_true rest

lemma noAdjacentWs_cons {a : Char} {L : List Char}
    (h1 : headNotWs L = true ∨ pyIsSpace a = false) (h2 : noAdjacentWs L = true) :
    noAdjacentWs (a :: L) = true := by
  match L, h1, h2 with
  | [], _, _ => rfl
  | b :: r, h1, h2 =>
    simp only [noAdjacentWs, Bool.and_eq_true, Bool.not_eq_true']
    refine ⟨?_, h2⟩
    rcases h1 with h1 | h1
    · simp only [headNotWs, Bool.not_eq_true'] at h1
      simp [h1]
    · simp [h1]

lemma noAdjacentWs_collapseWsAux :
    ∀ (b : Bool) (s : List Char), noAdjacentWs (collapseWsAux b s) = true
  | _, [] => rfl
  | b, a :: rest => by
    rcases ha : pyIsSpace a with _ | _
    · rw [collapseWsAux_notWs ha]
      exact noAdjacentWs_cons (Or.inr ha) (noAdjacentWs_collapseWsAux false rest)
    · cases b
      · rw [collapseWsAux_false_ws ha]
        exact noAdjacentWs_cons (Or.inl (headNotWs_collapseWsAux_true rest))
          (noAdjacentWs_collapseWsAux true rest)
      · rw [collapseWsAux_true_ws ha]
        exact noAdjacentWs_collapseWsAux true rest

lemma noAdjacentWs_cons_elim {a : Char} {L : List Char}
    (h : noAdjacentWs (a :: L) = true) : noAdjacentWs L = true := by
  match L, h with
  | [], _ => rfl
  | b :: r, h =>
    simp only [noAdjacentWs, Bool.and_eq_true] at h
    exact h.2

lemma noAdjacentWs_append_right :
    ∀ (x y : List Char), noAdjacentWs (x ++ y) = true → noAdjacentWs y = true
  | [], _, h => h
  | _ :: x, y, h => noAdjacentWs_append_right x y (noAdjacentWs_cons_elim h)

lemma noAdjacentWs_append_left :
    ∀ (x y : List Char), noAdjacentWs (x ++ y) = true → noAdjacentWs x = true
  | [], _, _ => rfl
  | [_], _, _ => rfl
  | a :: b :: x, y, h => by
    simp only [List.cons_append, noAdjacentWs, Bool.and_eq_true] at h ⊢
    exact ⟨h.1, noAdjacentWs_append_left (b :: x) y h.2⟩

lemma headNotWs_dropWhile :
    ∀ s : List Char, headNotWs (s.dropWhile pyIsSpace) = true
  | [] => rfl
  | a :: rest => by
    rcases ha : pyIsSpace a with _ | _
    · simp [List.dropWhile_cons, ha, headNotWs]
    · simpa [List.dropWhile_cons, ha] using headNotWs_dropWhile rest

lemma exists_append_dropWhile (p : Char → Bool) :
    ∀ s : List Char, ∃ t, s = t ++ s.dropWhile p
  | [] => ⟨[], rfl⟩
  | a :: rest => by
    rcases ha : p a with _ | _
    · exact ⟨[], by simp [List.dropWhile_cons, ha]⟩
    · obtain ⟨t, ht⟩ := exists_append_dropWhile p rest
      refine ⟨a :: t, ?_⟩
      rw [List.dropWhile_cons, if_pos (by simp [ha])]
      simpa using ht

/-- `pyStrip s` sits inside `s`: `s = t1 ++ pyStrip s ++ t2`. -/
lemma exists_pyStrip_decomp (s : List Char) :
    ∃ t1 t2, s = t1 ++ (pyStrip s ++ t2) ∧
      (s.dropWhile pyIsSpace) = pyStrip s ++ t2 := by
  obtain ⟨t1, ht1⟩ := exists_append_dropWhile pyIsSpace s
  obtain ⟨t2, ht2⟩ := exists_append_dropWhile pyIsSpace (s.dropWhile pyIsSpace).reverse
  have hd : s.dropWhile pyIsSpace = pyStrip s ++ t2.reverse := by
    have h3 := congrArg List.reverse ht2
    simpa [pyStrip, List.reverse_append] using h3
  refine ⟨t1, t2.reverse, ?_, hd⟩
  conv_lhs => rw [ht1]
  rw [hd]

lemma mem_pyStrip {c : Char} {s : List Char} (h : c ∈ pyStrip s) : c ∈ s := by
  obtain ⟨t1, t2, hs, -⟩ := exists_pyStrip_decomp s
  rw [hs]
  simp [h]

lemma noAdjacentWs_pyStrip {s : List Char} (h : noAdjacentWs s = true) :
    noAdjacentWs (pyStrip s) = true := by
  obtain ⟨t1, t2, hs, -⟩ := exists_pyStrip_decomp s
  rw [hs] at h
  exact noAdjacentWs_append_left _ _ (noAdjacentWs_append_right _ _ h)

lemma headNotWs_pyStrip (s : List Char) : headNotWs (pyStrip s) = true := by
  obtain ⟨t1, t2, -, hd⟩ := exists_pyStrip_decomp s
  have h := headNotWs_dropWhile s
  rw [hd] at h
  match hps : pyStrip s with
  | [] => rfl
  | c :: r =>
    rw [hps] at h
    simpa [headNotWs] using h

lemma lastNotWs_pyStrip (s : List Char) : lastNotWs (pyStrip s) = true := by
  have h : (pyStrip s).reverse = (s.dropWhile pyIsSpace).reverse.dropWhile pyIsSpace := by
    simp [pyStrip]
  rw [lastNotWs, h]
  exact headNotWs_dropWhile _

lemma removeInvalid_of_noInvalid {r : List Char} (h : noInvalid r = true) :
    removeInvalid r = r := by
  rw [removeInvalid, List.filter_eq_self]
  intro a ha
  have := (List.all_eq_true.mp h) a ha
  simpa using this

lemma wsOnlySpace_tail {a : Char} {rest : List Char}
    (h : wsOnlySpace (a :: rest) = true) : wsOnlySpace rest = true := by
  simp only [wsOnlySpace, List.all_cons, Bool.and_eq_true] at h
  exact h.2

lemma noAdjacentWs_head_tail {a : Char} {L : List Char}
    (h : noAdjacentWs (a :: L) = true) (ha : pyIsSpace a = true) :
    headNotWs L = true := by
  match L, h with
  | [], _ => rfl
  | b :: r, h =>
    simp only [noAdjacentWs, Bool.and_eq_true, Bool.not_eq_true'] at h
    rcases Bool.and_eq_false_iff.mp h.1 with h1 | h1
    · rw [ha] at h1; exact absurd h1 (by simp)
    · simp [headNotWs, h1]

lemma collapseWsAux_fixed :
    ∀ (b : Bool) (r : List Char), wsOnlySpace r = true → noAdjacentWs r = true →
      (b = true → headNotWs r = true) → collapseWsAux b r = r
  | _, [], _, _, _ => rfl
  | b, a :: rest, hws, hadj, hhead => by
    rcases ha : pyIsSpace a with _ | _
    · rw [collapseWsAux_notWs ha]
      congr 1
      exact collapseWsAux_fixed false rest (wsOnlySpace_tail hws)
        (noAdjacentWs_cons_elim hadj) (fun h => absurd h Bool.false_ne_true)
    · have hb : b = false := by
        cases b
        · rfl
        · have := hhead rfl
          rw [headNotWs, ha] at this
          exact absurd this (by simp)
      subst hb
      rw [collapseWsAux_false_ws ha]
      have haSpace : a = ' ' := by
        have := (List.all_eq_true.mp hws) a (List.mem_cons_self _ _)
        rw [ha] at this
        simpa using this
      rw [collapseWsAux_fixed true rest (wsOnlySpace_tail hws)
        (noAdjacentWs_cons_elim hadj) (fun _ => noAdjacentWs_head_tail hadj ha), haSpace]

lemma dropWhile_of_headNotWs {r : List Char} (h : headNotWs r = true) :
    r.dropWhile pyIsSpace = r := by
  match r, h with
  | [], _ => rfl
  | a :: rest, h =>
    rw [headNotWs, Bool.not_eq_true'] at h
    simp [List.dropWhile_cons, h]

lemma pyStrip_fixed {r : List Char} (h1 : headNotWs r = true) (h2 : lastNotWs r = true) :
    pyStrip r = r := by
  rw [pyStrip, dropWhile_of_headNotWs h1, dropWhile_of_headNotWs h2, List.reverse_reverse]

/-- Every property the spec asserts about a sanitized name holds of
`sanitizeCore s`. -/
lemma sanitizeCore_props (s : List Char) :
    sanitizeCore s ≠ [] ∧ noInvalid (sanitizeCore s) = true ∧
      wsOnlySpace (sanitizeCore s) = true ∧ noAdjacentWs (sanitizeCore s) = true ∧
      headNotWs (sanitizeCore s) = true ∧ lastNotWs (sanitizeCore s) = true := by
  rw [sanitizeCore]
  by_cases hr : pyStrip (collapseWs (removeInvalid s)) = []
  · rw [if_pos hr]
    refine ⟨by decide, by decide, by decide, by decide, by decide, by decide⟩
  · rw [if_neg hr]
    refine ⟨hr, ?_, ?_, ?_, headNotWs_pyStrip _, lastNotWs_pyStrip _⟩
    · rw [noInvalid, List.all_eq_true]
      intro c hc
      have hc2 := mem_pyStrip hc
      rcases mem_collapseWsAux false _ hc2 with h | h
      · simpa using mem_removeInvalid h
      · subst h; decide
    · rw [wsOnlySpace, List.all_eq_true]
      intro c hc
      have hc2 := mem_pyStrip hc
      rcases hcw : pyIsSpace c with _ | _
      · simp
      · have := mem_collapseWsAux_space false _ hc2 hcw
        simp [this]
    · exact noAdjacentWs_pyStrip (noAdjacentWs_collapseWsAux false _)

lemma sanitizeCore_idem (s : List Char) : sanitizeCore (sanitizeCore s) = sanitizeCore s := by
  obtain ⟨hne, hinv, hws, hadj, hhd, hlast⟩ := sanitizeCore_props s
  conv_lhs => rw [sanitizeCore]
  rw [collapseWs, removeInvalid_of_noInvalid hinv,
    collapseWsAux_fixed false _ hws hadj (fun h => absurd h Bool.false_ne_true),
    pyStrip_fixed hhd hlast, if_neg hne]

/-! # Claim theorems -/

/-- C6: for every input string, `sanitize_filename` returns a string with
none of the characters `< > : " / \ | ? *`, with every whitespace run
collapsed to a single space, with no leading or trailing whitespace, and
never empty — inputs that sanitize to nothing (such as `""` or `"???***"`)
yield the literal `"untitled"` — and `sanitize_filename "a/b:c*d"` is
`"abcd"`, which contains no forbidden character. -/
theorem sanitizeFilename_wellFormed (s : String) :
    noInvalid (sanitize_filename s).data = true ∧
    wsOnlySpace (sanitize_filename s).data = true ∧
    noAdjacentWs (sanitize_filename s).data = true ∧
    headNotWs (sanitize_filename s).data = true ∧
    lastNotWs (sanitize_filename s).data = true ∧
    sanitize_filename s ≠ "" ∧
    sanitize_filename "" = "untitled" ∧
    sanitize_filename "???***" = "untitled" ∧
    sanitize_filename "a/b:c*d" = "abcd" := by
  obtain ⟨hne, hinv, hws, hadj, hhd, hlast⟩ := sanitizeCore_props s.data
  refine ⟨hinv, hws, hadj, hhd, hlast, ?_, by decide, by decide, by decide⟩
  intro h
  exact hne (congrArg String.data h)

/-- C10: `sanitize_filename` is idempotent — sanitizing an
already-sanitized name (including the fallback `"untitled"`) returns it
unchanged. -/
theorem sanitizeFilename_idempotent (s : String) :
    sanitize_filename (sanitize_filename s) = sanitize_filename s :=
  congrArg (fun l => (⟨l⟩ : String)) (sanitizeCore_idem s.data)

/-! ## `AudioDownloader.download` (C7) -/

/-- C7: `AudioDownloader.download` never lets an exception escape — every
strategy behaviour yields a `DownloadResult` — failure paths fold into
`DownloadResult.failure` with a message (a raised `DownloadError` keeps its
message, other exceptions get an "Unexpected error" message, a missing file
path gets "Download returned no file"), and a cooperative cancellation
(`yt_dlp.utils.DownloadCancelled`) yields the distinguishable message
"Download cancelled by user". -/
theorem audioDownload_total (o : StratOutcome) :
    (∃ r : DownloadResult, audioDownloaderDownload o = .ok r) ∧
    (∀ r, audioDownloaderDownload o = .ok r → r.success = false →
      ∃ m, r.errorMessage = some m) ∧
    (∀ m, audioDownloaderDownload (.raiseDownloadError m) =
      .ok (DownloadResult.failureResult m)) ∧
    (∀ m, audioDownloaderDownload (.raiseExc "DownloadCancelled" m) =
      .ok (DownloadResult.failureResult "Download cancelled by user")) ∧
    (∀ ty m, isCancellationExc ty m = false →
      audioDownloaderDownload (.raiseExc ty m) =
        .ok (DownloadResult.failureResult ("Unexpected error: " ++ m))) ∧
    audioDownloaderDownload (.ok none) =
      .ok (DownloadResult.failureResult "Download returned no file") := by
  refine ⟨?_, ?_, fun m => rfl, ?_, ?_, rfl⟩
  · match o with
    | .ok none => exact ⟨_, rfl⟩
    | .ok (some fp) =>
      by_cases hfp : fp = ""
      · subst hfp; exact ⟨_, rfl⟩
      · exact ⟨DownloadResult.successResult fp, by simp [audioDownloaderDownload, hfp]⟩
    | .raiseDownloadError m => exact ⟨_, rfl⟩
    | .raiseExc ty m =>
      rcases hc : isCancellationExc ty m with _ | _
      · exact ⟨DownloadResult.failureResult ("Unexpected error: " ++ m),
          by simp [audioDownloaderDownload, hc]⟩
      · exact ⟨DownloadResult.failureResult "Download cancelled by user",
          by simp [audioDownloaderDownload, hc]⟩
  · intro r hr hfail
    match o, hr with
    | .ok none, hr =>
      cases hr
      exact ⟨_, rfl⟩
    | .ok (some fp), hr =>
      by_cases hfp : fp = ""
      · subst hfp
        cases hr
        exact ⟨_, rfl⟩
      · rw [audioDownloaderDownload, if_pos (by simpa using hfp)] at hr
        cases hr
        simp [DownloadResult.successResult] at hfail
    | .raiseDownloadError m, hr =>
      cases hr
      exact ⟨_, rfl⟩
    | .raiseExc ty m, hr =>
      rcases hc : isCancellationExc ty m with _ | _
      · rw [audioDownloaderDownload] at hr
        rw [if_neg (by simp [hc])] at hr
        cases hr
        exact ⟨_, rfl⟩
      · rw [audioDownloaderDownload] at hr
        rw [if_pos hc] at hr
        cases hr
        exact ⟨_, rfl⟩
  · intro m
    rw [audioDownloaderDownload, if_pos]
    rw [isCancellationExc, Bool.or_eq_true]
    exact Or.inl (by decide)
  · intro ty m hc
    rw [audioDownloaderDownload, if_neg (by simp [hc])]

/-! ## `download_playlist` pre-checks (C8) -/

/-- C8: `download_playlist` validates before dispatching anything: a
non-playlist (or missing) metadata result yields exactly
`[failure "URL is not a playlist"]`, an empty entry list yields exactly
`[failure "Playlist is empty"]` (whose message contains "empty"), and in
both cases the list of dispatched items is empty. -/
theorem downloadPlaylist_preChecks :
    (∀ url oc sf cb, downloadPlaylist url none oc sf cb =
      ([DownloadResult.failureResult "URL is not a playlist"], [])) ∧
    (∀ url info oc sf cb, info.typeTag ≠ some "playlist" →
      downloadPlaylist url (some info) oc sf cb =
        ([DownloadResult.failureResult "URL is not a playlist"], [])) ∧
    (∀ url info oc sf cb, info.typeTag = some "playlist" → info.entries = [] →
      downloadPlaylist url (some info) oc sf cb =
        ([DownloadResult.failureResult "Playlist is empty"], [])) ∧
    hasSub "empty".data "Playlist is empty".data = true := by
  refine ⟨fun _ _ _ _ => rfl, ?_, ?_, by decide⟩
  · intro url info oc sf cb h
    rw [downloadPlaylist, if_pos h]
  · intro url info oc sf cb h1 h2
    rw [downloadPlaylist, if_neg (by simp [h1]), if_pos (by simp [h2])]

/-! ## The worker retry loop (C2) -/

/-- C2: in `DownloadWorker._download_single`, exactly the failures whose
message (lower-cased) contains "unable to obtain file audio codec" or
"ffprobe" are retried, each retry preceded by a status notification, with
at most 2 retries (3 attempts total); any other failed result — including
the corrupt-source classification produced by
`YtDlpDownloadStrategy.download` and the cancellation result
"Download cancelled by user" — terminates the loop at once with no retry
and no status. -/
theorem downloadWorker_retryPolicy (attempt : Nat → DownloadResult) :
    (∀ r : DownloadResult, retryableResult r = true ↔
      (r.success = false ∧ ∃ m, r.errorMessage = some m ∧ m ≠ "" ∧
        (hasSub "unable to obtain file audio codec".data (lowerList m.data) = true ∨
         hasSub "ffprobe".data (lowerList m.data) = true))) ∧
    (1 ≤ (downloadSingleRetry attempt).2.1 ∧ (downloadSingleRetry attempt).2.1 ≤ 3) ∧
    (retryableResult (attempt 0) = false →
      downloadSingleRetry attempt = (attempt 0, 1, [])) ∧
    (retryableResult (attempt 0) = true → retryableResult (attempt 1) = false →
      downloadSingleRetry attempt = (attempt 1, 2, [retryStatus 1])) ∧
    (retryableResult (attempt 0) = true → retryableResult (attempt 1) = true →
      downloadSingleRetry attempt = (attempt 2, 3, [retryStatus 1, retryStatus 2])) ∧
    retryableResult (DownloadResult.failureResult corruptSourceMessage) = false ∧
    retryableResult (DownloadResult.failureResult "Download cancelled by user") = false ∧
    (∀ raw, (hasSub "Invalid data found".data raw.data ||
        hasSub "Error opening input".data raw.data) = true →
      classifyTransferError raw = corruptSourceMessage ∧
      retryableResult (DownloadResult.failureResult (classifyTransferError raw)) = false) := by
  refine ⟨?_, ?_, ?_, ?_, ?_, by decide, by decide, ?_⟩
  · intro r
    obtain ⟨su, fp, em⟩ := r
    cases su <;> cases em <;>
      simp [retryableResult, Bool.or_eq_true, and_assoc]
  · rw [downloadSingleRetry, retryGo]
    rcases h0 : retryableResult (attempt 0) with _ | _
    · simp [h0]
    · simp only [h0, if_true]
      rw [retryGo]
      rcases h1 : retryableResult (attempt 1) with _ | _
      · simp [h1]
      · simp only [h1, if_true]
        rw [retryGo]
        simp
  · intro h0
    rw [downloadSingleRetry, retryGo, if_neg (by simp [h0])]
  · intro h0 h1
    rw [downloadSingleRetry, retryGo, if_pos h0, retryGo, if_neg (by simp [h1])]
  · intro h0 h1
    rw [downloadSingleRetry, retryGo, if_pos h0, retryGo, if_pos h1, retryGo]
  · intro raw hraw
    have hc : classifyTransferError raw = corruptSourceMessage := by
      rw [classifyTransferError, if_pos hraw]
    refine ⟨hc, ?_⟩
    rw [hc]
    decide

/-! ## Output templates (C5) -/

lemma underscoreSanitize_ne_empty {t : String} (h : t ≠ "") :
    underscoreSanitize t ≠ "" := by
  intro hc
  apply h
  have hd : (underscoreSanitize t).data = [] := congrArg String.data hc
  rw [underscoreSanitize] at hd
  have : t.data = [] := by simpa using hd
  obtain ⟨d⟩ := t
  simp only at this
  rw [this]

/-- C5 counterexample: the claim states the playlist subdirectory is the
§3-sanitized title (`sanitize_filename`, which deletes forbidden
characters), but `download_playlist` replaces each forbidden character
with an underscore: for the playlist title `"a/b"` the code's template
uses the directory `a_b`, while the claimed template uses `ab`. -/
theorem outputTemplate_counterexample :
    playlistItemTemplate "outputDir" (some "a/b") 7 =
      "outputDir/a_b/007 - %(title)s.%(ext)s" ∧
    specItemTemplate "outputDir" "a/b" 7 =
      "outputDir/ab/007 - %(title)s.%(ext)s" ∧
    playlistItemTemplate "outputDir" (some "a/b") 7 ≠
      specItemTemplate "outputDir" "a/b" 7 := by
  refine ⟨by decide, by decide, by decide⟩

/-- C5 (amended): for every playlist download with a non-empty metadata
title and an index, the code's output template is
`outputDir/underscoreSanitize(title)/{index:03d} - %(title)s.%(ext)s`,
where the sanitization replaces each of `< > : " / \ | ? *` by `_`
(it does not collapse whitespace and has no "untitled" fallback); with no
playlist title the template is `outputDir/%(title)s.%(ext)s`; and the
scenario holds: title `"My Mix"`, index 7, item title `"Song"`, extension
`"mp3"` yield the path `outputDir/My Mix/007 - Song.mp3`. -/
theorem outputTemplate_amended (outputDir rawTitle : String) (i : Nat)
    (hrt : rawTitle ≠ "") :
    playlistItemTemplate outputDir (some rawTitle) i =
      outputDir ++ "/" ++ underscoreSanitize rawTitle ++ "/" ++ pad3 i ++
        " - %(title)s.%(ext)s" ∧
    (∀ pi, ydlOutputTemplate outputDir none pi = outputDir ++ "/%(title)s.%(ext)s") ∧
    playlistItemTemplate "outputDir" (some "My Mix") 7 =
      "outputDir/My Mix/007 - %(title)s.%(ext)s" ∧
    renderTemplate (playlistItemTemplate "outputDir" (some "My Mix") 7) "Song" "mp3" =
      "outputDir/My Mix/007 - Song.mp3" := by
  refine ⟨?_, fun pi => rfl, by decide, by decide⟩
  rw [playlistItemTemplate, ydlOutputTemplate,
    if_pos (by simpa [strTruthy] using underscoreSanitize_ne_empty hrt)]
  simp [String.append_assoc]

/-- C5 witness: the amended theorem applied to the scenario input. -/
theorem outputTemplate_amended_witness :
    playlistItemTemplate "outputDir" (some "My Mix") 7 =
      "outputDir" ++ "/" ++ underscoreSanitize "My Mix" ++ "/" ++ pad3 7 ++
        " - %(title)s.%(ext)s" :=
  (outputTemplate_amended "outputDir" "My Mix" 7 (by decide)).1

/-! ## ETA display (C9) -/

/-- C9 counterexample: the claim says a remaining duration under one second
is displayed as the literal string `"<1s"`, but the code
(src/ui/download_worker.py line 341) emits `"< 1s"` (with a space): with
speed 100 B/s, total 150 and downloaded 100 the remaining duration is
0.5 s and the display is `"< 1s"`. -/
theorem etaDisplay_counterexample :
    etaDisplay (some ⟨100, 1⟩) 150 100 = some "< 1s" ∧ "< 1s" ≠ "<1s" := by
  refine ⟨by decide, by decide⟩

/-- C9 (amended): an ETA is displayed only when speed, total and
downloaded bytes are all positive; a remaining duration in `(0, 1]`
seconds is displayed as the literal `"< 1s"` (with a space); a remaining
duration over one second is formatted from the rounded second count `n`:
plain seconds (`"{n}s"`) when `n < 60`, zero-padded `MM:SS` when
`n // 60 < 60`, and `HH:MM:SS` otherwise. -/
theorem etaDisplay_amended :
    (∀ speed total downloaded s, etaDisplay speed total downloaded = some s →
      ∃ sp, speed = some sp ∧ sp.isPos = true ∧ 0 < total ∧ 0 < downloaded) ∧
    (∀ sp total downloaded, sp.isPos = true → 0 < total → 0 < downloaded →
      ((etaValue sp total downloaded).isPos = true →
        (etaValue sp total downloaded).gtOne = false →
        etaDisplay (some sp) total downloaded = some "< 1s") ∧
      ((etaValue sp total downloaded).gtOne = true →
        etaDisplay (some sp) total downloaded =
          some (formatEta (etaValue sp total downloaded)))) ∧
    (∀ q : PyFloat, 0 < q.num →
      (q.pyRound.toNat < 60 → formatEta q = toString q.pyRound.toNat ++ "s") ∧
      (60 ≤ q.pyRound.toNat → q.pyRound.toNat < 3600 →
        formatEta q = pad2 (q.pyRound.toNat / 60) ++ ":" ++ pad2 (q.pyRound.toNat % 60)) ∧
      (3600 ≤ q.pyRound.toNat →
        formatEta q = pad2 (q.pyRound.toNat / 60 / 60) ++ ":" ++
          pad2 (q.pyRound.toNat / 60 % 60) ++ ":" ++ pad2 (q.pyRound.toNat % 60))) := by
  refine ⟨?_, ?_, ?_⟩
  · intro speed total downloaded s h
    match speed, h with
    | none, h => exact absurd h (by simp [etaDisplay])
    | some sp, h =>
      refine ⟨sp, rfl, ?_⟩
      rcases hcond : (sp.isPos && (decide (0 < total)) && (decide (0 < downloaded))) with _ | _
      · rw [etaDisplay] at h
        rw [if_neg (by simp [Bool.and_eq_true] at hcond ⊢; tauto)] at h
        exact absurd h (by simp)
      · simp only [Bool.and_eq_true, decide_eq_true_eq] at hcond
        exact ⟨hcond.1.1, hcond.1.2, hcond.2⟩
  · intro sp total downloaded h1 h2 h3
    constructor
    · intro hp hg1
      rw [etaDisplay, if_pos (by simp [h1, h2, h3]), if_neg (by simp [hg1]), if_pos hp]
    · intro hg1
      rw [etaDisplay, if_pos (by simp [h1, h2, h3]), if_pos hg1]
  · intro q hq
    refine ⟨?_, ?_, ?_⟩
    · intro hn
      rw [formatEta, if_neg (by omega), if_pos hn]
    · intro hn1 hn2
      rw [formatEta, if_neg (by omega), if_neg (by omega), if_pos (by omega)]
    · intro hn
      rw [formatEta, if_neg (by omega), if_neg (by omega), if_neg (by omega)]

/-- C9 witness: the amended theorem applied at concrete inputs — speed
100 B/s with 50 remaining bytes shows `"< 1s"`. -/
theorem etaDisplay_amended_witness :
    etaDisplay (some ⟨100, 1⟩) 150 100 = some "< 1s" :=
  ((etaDisplay_amended.2.1 ⟨100, 1⟩ 150 100 (by decide) (by decide) (by decide)).1
    (by decide) (by decide))

/-! ## The playlist loop (C1, C3) -/

lemma expectedResults_length (oc : Nat → StratOutcome) :
    ∀ (start : Nat) (entries : List (Option PlEntry)),
      (expectedResults oc start entries).length = entries.length
  | _, [] => rfl
  | start, _ :: rest => by
    simp [expectedResults, expectedResults_length oc (start + 1) rest]

lemma expectedResults_getElem (oc : Nat → StratOutcome) :
    ∀ (start : Nat) (entries : List (Option PlEntry)) (j : Nat) (eo : Option PlEntry),
      entries[j]? = some eo →
      (expectedResults oc start entries)[j]? = some (itemResult (start + j) eo (oc (start + j)))
  | _, [], j, eo, h => by simp at h
  | start, e0 :: rest, 0, eo, h => by
    simp only [List.getElem?_cons_zero, Option.some.injEq] at h
    subst h
    simp [expectedResults]
  | start, e0 :: rest, j + 1, eo, h => by
    simp only [List.getElem?_cons_succ] at h
    have := expectedResults_getElem oc (start + 1) rest j eo h
    simpa [expectedResults, Nat.add_assoc, Nat.add_comm 1 j] using this

lemma runItems_noCancel (url : String) (oc : Nat → StratOutcome) (sf : Nat → Bool)
    (cb : Bool) (hnostop : ∀ k, sf k = false)
    (hnocancel : ∀ k, notCancelOutcome (oc k) = true) :
    ∀ (start : Nat) (entries : List (Option PlEntry)),
      ∃ d, runItems url oc sf cb start entries =
        .finished (expectedResults oc start entries) d
  | _, [] => ⟨[], rfl⟩
  | start, none :: rest => by
    obtain ⟨d, hd⟩ := runItems_noCancel url oc sf cb hnostop hnocancel (start + 1) rest
    exact ⟨d, by simp [runItems, hd, expectedResults, itemResult, LoopOut.consResult]⟩
  | start, some e :: rest => by
    obtain ⟨d, hd⟩ := runItems_noCancel url oc sf cb hnostop hnocancel (start + 1) rest
    rcases hu : strTruthy (entryUrlOf e) with _ | _
    · refine ⟨d, ?_⟩
      simp [runItems, hu, hd, expectedResults, itemResult, LoopOut.consResult]
    · have hstop : (cb && sf start) = false := by simp [hnostop start]
      match hoc : oc start with
      | .ok p =>
        refine ⟨(start, resolveEntryUrl url e start ((entryUrlOf e).getD "")) :: d, ?_⟩
        simp [runItems, hu, hstop, hoc, hd, expectedResults, itemResult,
          itemOutcomeResult, LoopOut.consResult, LoopOut.consDispatch]
      | .raiseDownloadError m =>
        refine ⟨(start, resolveEntryUrl url e start ((entryUrlOf e).getD "")) :: d, ?_⟩
        simp [runItems, hu, hstop, hoc, hd, expectedResults, itemResult,
          itemOutcomeResult, LoopOut.consResult, LoopOut.consDispatch]
      | .raiseExc ty m =>
        have hcx : isCancellationExc ty m = false := by
          have := hnocancel start
          rw [hoc] at this
          simpa [notCancelOutcome] using this
        refine ⟨(start, resolveEntryUrl url e start ((entryUrlOf e).getD "")) :: d, ?_⟩
        simp [runItems, hu, hstop, hoc, hcx, hd, expectedResults, itemResult,
          itemOutcomeResult, LoopOut.consResult, LoopOut.consDispatch]

/-- C1: when no cancellation occurs, `download_playlist` on a playlist with
N ≥ 1 entries returns exactly N results, one per entry in entry order; the
result at each position is the per-item folding `itemResult` — an invalid
(null) entry, a missing URL, or a raised `DownloadError` each yield a
failure result at that position without affecting the other items. -/
theorem downloadPlaylist_perEntryResults (url : String) (info : PlaylistInfo)
    (oc : Nat → StratOutcome) (sf : Nat → Bool) (cb : Bool)
    (htype : info.typeTag = some "playlist") (hne : info.entries ≠ [])
    (hnostop : ∀ k, sf k = false)
    (hnocancel : ∀ k, notCancelOutcome (oc k) = true) :
    (downloadPlaylist url (some info) oc sf cb).1 = expectedResults oc 1 info.entries ∧
    (downloadPlaylist url (some info) oc sf cb).1.length = info.entries.length ∧
    (∀ (j : Nat) (eo : Option PlEntry), info.entries[j]? = some eo →
      (downloadPlaylist url (some info) oc sf cb).1[j]? =
        some (itemResult (1 + j) eo (oc (1 + j)))) := by
  obtain ⟨d, hd⟩ := runItems_noCancel url oc sf cb hnostop hnocancel 1 info.entries
  have hmain : (downloadPlaylist url (some info) oc sf cb).1 =
      expectedResults oc 1 info.entries := by
    rw [downloadPlaylist, if_neg (by simp [htype]), if_neg (by simpa using hne), hd]
  refine ⟨hmain, ?_, ?_⟩
  · rw [hmain, expectedResults_length]
  · intro j eo hj
    rw [hmain]
    exact expectedResults_getElem oc 1 info.entries j eo hj

/-- C1 witness: a 3-entry playlist where only item 2 raises
`DownloadError` yields `[success, failure, success]`. -/
theorem downloadPlaylist_perEntryResults_witness :
    (downloadPlaylist "https://example.com/pl"
      (some ⟨some "playlist", some "Mix",
        [some ⟨some "https://e/1", none, some "i1", some "T1"⟩,
         some ⟨some "https://e/2", none, some "i2", some "T2"⟩,
         some ⟨some "https://e/3", none, some "i3", some "T3"⟩]⟩)
      (fun k => if k = 2 then .raiseDownloadError "boom" else .ok (some "f.mp3"))
      (fun _ => false) true).1 =
      [DownloadResult.successResult "f.mp3", DownloadResult.failureResult "boom",
       DownloadResult.successResult "f.mp3"] := by
  rw [(downloadPlaylist_perEntryResults "https://example.com/pl"
    ⟨some "playlist", some "Mix",
      [some ⟨some "https://e/1", none, some "i1", some "T1"⟩,
       some ⟨some "https://e/2", none, some "i2", some "T2"⟩,
       some ⟨some "https://e/3", none, some "i3", some "T3"⟩]⟩
    (fun k => if k = 2 then .raiseDownloadError "boom" else .ok (some "f.mp3"))
    (fun _ => false) true rfl (by decide) (fun _ => rfl)
    (fun k => by by_cases hk : k = 2 <;> simp [hk, notCancelOutcome])).1]
  decide

/-- C3 counterexample: 5 valid entries, all downloads succeed, and the
stop flag becomes set while item 2's start callback runs (`stopAt k` is
true from `k = 2` on).  The claim asserts the result list is
`[item 1's result, one cancellation result]` (2 entries); the code's
result list has exactly 1 entry — the callback's `DownloadCancelled`
escapes the loop, the enclosing `except` discards item 1's result and
returns a single "Playlist download failed" failure.  Only item 1 was
dispatched. -/
theorem downloadPlaylist_callbackCancel_counterexample :
    (downloadPlaylist "https://example.com/pl"
      (some ⟨some "playlist", some "Mix",
        [some ⟨some "https://e/1", none, some "i1", some "T1"⟩,
         some ⟨some "https://e/2", none, some "i2", some "T2"⟩,
         some ⟨some "https://e/3", none, some "i3", some "T3"⟩,
         some ⟨some "https://e/4", none, some "i4", some "T4"⟩,
         some ⟨some "https://e/5", none, some "i5", some "T5"⟩]⟩)
      (fun _ => .ok (some "f.mp3")) (fun k => decide (2 ≤ k)) true).1 =
      [DownloadResult.failureResult
        "Playlist download failed: Playlist download cancelled by user"] ∧
    (downloadPlaylist "https://example.com/pl"
      (some ⟨some "playlist", some "Mix",
        [some ⟨some "https://e/1", none, some "i1", some "T1"⟩,
         some ⟨some "https://e/2", none, some "i2", some "T2"⟩,
         some ⟨some "https://e/3", none, some "i3", some "T3"⟩,
         some ⟨some "https://e/4", none, some "i4", some "T4"⟩,
         some ⟨some "https://e/5", none, some "i5", some "T5"⟩]⟩)
      (fun _ => .ok (some "f.mp3")) (fun k => decide (2 ≤ k)) true).1.length ≠ 2 ∧
    (downloadPlaylist "https://example.com/pl"
      (some ⟨some "playlist", some "Mix",
        [some ⟨some "https://e/1", none, some "i1", some "T1"⟩,
         some ⟨some "https://e/2", none, some "i2", some "T2"⟩,
         some ⟨some "https://e/3", none, some "i3", some "T3"⟩,
         some ⟨some "https://e/4", none, some "i4", some "T4"⟩,
         some ⟨some "https://e/5", none, some "i5", some "T5"⟩]⟩)
      (fun _ => .ok (some "f.mp3")) (fun k => decide (2 ≤ k)) true).2 =
      [(1, "https://e/1")] := by
  refine ⟨by decide, by decide, by decide⟩

lemma runItems_abort (url : String) (oc : Nat → StratOutcome) (sf : Nat → Bool)
    (k : Nat) (hstop : sf k = true) :
    ∀ (start : Nat) (entries : List (Option PlEntry)),
      start ≤ k → k < start + entries.length →
      (∀ j, start ≤ j → j < k → sf j = false) →
      (∀ j, start ≤ j → j < k → notCancelOutcome (oc j) = true) →
      (∃ e, entries[k - start]? = some (some e) ∧ strTruthy (entryUrlOf e) = true) →
      ∃ d, runItems url oc sf true start entries =
        .aborted "Playlist download cancelled by user" d ∧ ∀ p ∈ d, p.1 < k
  | start, [], hs, hl, _, _, _ => by simp at hl; omega
  | start, eo :: rest, hs, hl, hbefore, hnocancel, hvalid => by
    rcases Nat.eq_or_lt_of_le hs with heq | hlt
    · subst heq
      obtain ⟨e, he, hu⟩ := hvalid
      rw [Nat.sub_self, List.getElem?_cons_zero] at he
      cases he
      refine ⟨[], ?_, by simp⟩
      simp [runItems, hu, hstop]
    · have hrec := runItems_abort url oc sf k hstop (start + 1) rest hlt
        (by simp at hl ⊢; omega)
        (fun j h1 h2 => hbefore j (by omega) h2)
        (fun j h1 h2 => hnocancel j (by omega) h2)
        (by
          obtain ⟨e, he, hu⟩ := hvalid
          refine ⟨e, ?_, hu⟩
          have hks : k - start = (k - (start + 1)) + 1 := by omega
          rw [hks, List.getElem?_cons_succ] at he
          exact he)
      obtain ⟨d, hd, hdlt⟩ := hrec
      match eo with
      | none =>
        refine ⟨d, ?_, hdlt⟩
        simp [runItems, hd, LoopOut.consResult]
      | some e =>
        rcases hu : strTruthy (entryUrlOf e) with _ | _
        · refine ⟨d, ?_, hdlt⟩
          simp [runItems, hu, hd, LoopOut.consResult]
        · have hsf : sf start = false := hbefore start (le_refl _) hlt
          match hoc : oc start with
          | .ok p =>
            refine ⟨(start, resolveEntryUrl url e start ((entryUrlOf e).getD "")) :: d,
              ?_, ?_⟩
            · simp [runItems, hu, hsf, hoc, hd, LoopOut.consResult, LoopOut.consDispatch]
            · intro p hp
              rcases List.mem_cons.mp hp with hp | hp
              · subst hp; exact hlt
              · exact hdlt p hp
          | .raiseDownloadError m =>
            refine ⟨(start, resolveEntryUrl url e start ((entryUrlOf e).getD "")) :: d,
              ?_, ?_⟩
            · simp [runItems, hu, hsf, hoc, hd, LoopOut.consResult, LoopOut.consDispatch]
            · intro p hp
              rcases List.mem_cons.mp hp with hp | hp
              · subst hp; exact hlt
              · exact hdlt p hp
          | .raiseExc ty m =>
            have hcx : isCancellationExc ty m = false := by
              have := hnocancel start (le_refl _) hlt
              rw [hoc] at this
              simpa [notCancelOutcome] using this
            refine ⟨(start, resolveEntryUrl url e start ((entryUrlOf e).getD "")) :: d,
              ?_, ?_⟩
            · simp [runItems, hu, hsf, hoc, hcx, hd, LoopOut.consResult,
                LoopOut.consDispatch]
            · intro p hp
              rcases List.mem_cons.mp hp with hp | hp
              · subst hp; exact hlt
              · exact hdlt p hp

/-- C3 (amended): when the stop flag is first observed at the per-item
start checkpoint of item `k` (the items before `k` ran without
cancellation and item `k` is a valid entry, so its callback runs), the
callback's `DownloadCancelled` escapes the loop and `download_playlist`
returns the single-element list
`[failure "Playlist download failed: Playlist download cancelled by user"]`
— the results of items `1..k-1` are discarded, not returned — and no item
from `k` on is ever dispatched (every dispatched index is `< k`). -/
theorem downloadPlaylist_callbackCancel (url : String) (info : PlaylistInfo)
    (oc : Nat → StratOutcome) (sf : Nat → Bool) (k : Nat)
    (htype : info.typeTag = some "playlist")
    (hk1 : 1 ≤ k) (hk2 : k ≤ info.entries.length)
    (hstop : sf k = true)
    (hbefore : ∀ j, j < k → sf j = false)
    (hnocancel : ∀ j, j < k → notCancelOutcome (oc j) = true)
    (hvalid : ∃ e, info.entries[k - 1]? = some (some e) ∧
      strTruthy (entryUrlOf e) = true) :
    (downloadPlaylist url (some info) oc sf true).1 =
      [DownloadResult.failureResult
        "Playlist download failed: Playlist download cancelled by user"] ∧
    (∀ p ∈ (downloadPlaylist url (some info) oc sf true).2, p.1 < k) := by
  obtain ⟨d, hd, hdlt⟩ := runItems_abort url oc sf k hstop 1 info.entries hk1
    (by omega) (fun j h1 h2 => hbefore j h2) (fun j h1 h2 => hnocancel j h2) hvalid
  have hne : info.entries ≠ [] := by
    intro h
    rw [h] at hk2
    simp at hk2
    omega
  have hmain : downloadPlaylist url (some info) oc sf true =
      ([DownloadResult.failureResult
        ("Playlist download failed: " ++ "Playlist download cancelled by user")], d) := by
    rw [downloadPlaylist, if_neg (by simp [htype]), if_neg (by simpa using hne), hd]
  rw [hmain]
  exact ⟨rfl, hdlt⟩

/-- C3 witness: the amended theorem applied to the 5-entry scenario with
the flag set from item 2 on. -/
theorem downloadPlaylist_callbackCancel_witness :
    (downloadPlaylist "https://example.com/pl"
      (some ⟨some "playlist", some "Mix",
        [some ⟨some "https://e/1", none, some "i1", some "T1"⟩,
         some ⟨some "https://e/2", none, some "i2", some "T2"⟩,
         some ⟨some "https://e/3", none, some "i3", some "T3"⟩,
         some ⟨some "https://e/4", none, some "i4", some "T4"⟩,
         some ⟨some "https://e/5", none, some "i5", some "T5"⟩]⟩)
      (fun _ => .ok (some "f.mp3")) (fun k => decide (2 ≤ k)) true).1 =
      [DownloadResult.failureResult
        "Playlist download failed: Playlist download cancelled by user"] :=
  (downloadPlaylist_callbackCancel "https://example.com/pl"
    ⟨some "playlist", some "Mix",
      [some ⟨some "https://e/1", none, some "i1", some "T1"⟩,
       some ⟨some "https://e/2", none, some "i2", some "T2"⟩,
       some ⟨some "https://e/3", none, some "i3", some "T3"⟩,
       some ⟨some "https://e/4", none, some "i4", some "T4"⟩,
       some ⟨some "https://e/5", none, some "i5", some "T5"⟩]⟩
    (fun _ => .ok (some "f.mp3")) (fun k => decide (2 ≤ k)) 2 rfl
    (by decide) (by decide) (by decide)
    (fun j hj => by simp; omega)
    (fun j hj => rfl)
    ⟨⟨some "https://e/2", none, some "i2", some "T2"⟩, by decide⟩).1

/-! ## Progress emissions (C4) -/

lemma trunc_nonneg {f : PyFloat} (h : f.isPos = true) : 0 ≤ f.trunc := by
  rw [PyFloat.isPos, decide_eq_true_eq] at h
  rw [PyFloat.trunc, if_pos (le_of_lt h)]
  exact_mod_cast Nat.zero_le _

lemma trunc_le_100 {f : PyFloat} (hp : f.isPos = true) (hb : f.le100 = true) :
    f.trunc ≤ 100 := by
  rw [PyFloat.isPos, decide_eq_true_eq] at hp
  rw [PyFloat.le100, decide_eq_true_eq] at hb
  have hden : 0 < f.den := by
    rcases Nat.eq_zero_or_pos f.den with h | h
    · rw [h] at hb; simp at hb; omega
    · exact h
  have h1 : f.num.toNat ≤ 100 * f.den := by omega
  have h2 : f.num.toNat / f.den ≤ (100 * f.den) / f.den := Nat.div_le_div_right h1
  rw [Nat.mul_div_cancel _ hden] at h2
  rw [PyFloat.trunc, if_pos (le_of_lt hp)]
  exact_mod_cast h2

lemma truncHalf_nonneg {x : Int} (h0 : 0 ≤ x) : 0 ≤ truncHalf x := by
  rw [truncHalf, if_pos h0]
  omega

lemma truncHalf_le_100 {x : Int} (h0 : 0 ≤ x) (h : x ≤ 200) : truncHalf x ≤ 100 := by
  rw [truncHalf, if_pos h0]
  have h1 : x.toNat ≤ 200 := by omega
  have h2 : x.toNat / 2 ≤ 200 / 2 := Nat.div_le_div_right h1
  omega

lemma smoothedTarget_le_100 {st : ProgState} {newP : Int} (hn0 : 0 ≤ newP)
    (hn : newP ≤ 100) (h100 : st.lastProgress ≤ 100) :
    smoothedTarget st newP ≤ 100 := by
  rw [smoothedTarget]
  by_cases hc : (decide (0 < st.lastProgress) &&
      decide (20 < (newP - st.lastProgress).natAbs)) = true
  · rw [if_pos hc]
    simp only [Bool.and_eq_true, decide_eq_true_eq] at hc
    exact truncHalf_le_100 (by omega) (by omega)
  · rw [if_neg hc]
    exact hn

lemma smoothProgressUpdate_spec (st : ProgState) (t : PyFloat) (newP : Int)
    (hn0 : 0 ≤ newP) (hn : newP ≤ 100) (h100 : st.lastProgress ≤ 100) :
    ((smoothProgressUpdate st t newP).2 = none ∧
      (smoothProgressUpdate st t newP).1.lastProgress = st.lastProgress) ∨
    ((smoothProgressUpdate st t newP).2 =
        some ((smoothProgressUpdate st t newP).1.lastProgress) ∧
      st.lastProgress ≤ (smoothProgressUpdate st t newP).1.lastProgress ∧
      (smoothProgressUpdate st t newP).1.lastProgress ≤ 100) := by
  rw [smoothProgressUpdate]
  by_cases hskip : (pfLt (pfSub t st.lastProgressTime) ⟨1, 10⟩ &&
      decide ((newP - st.lastProgress).natAbs < 5)) = true
  · rw [if_pos hskip]
    exact Or.inl ⟨rfl, rfl⟩
  · rw [if_neg hskip]
    by_cases hemit : st.lastProgress ≤ smoothedTarget st newP
    · rw [if_pos hemit]
      exact Or.inr ⟨rfl, hemit, smoothedTarget_le_100 hn0 hn h100⟩
    · rw [if_neg hemit]
      exact Or.inl ⟨rfl, rfl⟩

lemma statusThrottle_lastProgress (st : ProgState) (t : PyFloat) :
    (statusThrottle st t).lastProgress = st.lastProgress := by
  rw [statusThrottle]
  by_cases hc : pfLt (pfSub t st.lastStatusTime) ⟨1, 2⟩ = true
  · rw [if_pos hc]
  · rw [if_neg hc]

lemma processEvent_downloading_spec (st : ProgState) (t : PyFloat) (ev : RawEvent)
    (hev : isDownloadingEvent ev = true) (hb : eventPercentLe100 ev = true)
    (h100 : st.lastProgress ≤ 100) :
    ((processEvent st t ev).2 = [] ∧
      (processEvent st t ev).1.lastProgress = st.lastProgress) ∨
    ((processEvent st t ev).2 = [(processEvent st t ev).1.lastProgress] ∧
      st.lastProgress ≤ (processEvent st t ev).1.lastProgress ∧
      (processEvent st t ev).1.lastProgress ≤ 100) := by
  match ev, hev with
  | .downloading ps d tb est fi fc sp, _ =>
    rw [eventPercentLe100] at hb
    have hpe : processEvent st t (.downloading ps d tb est fi fc sp) =
        (statusThrottle (downloadStep st t ps d tb est fi fc).1 t,
          (downloadStep st t ps d tb est fi fc).2.toList) := rfl
    rcases hpos : (derivePercent ps d (pyTotal tb est) fi fc).isPos with _ | _
    · left
      have hds : downloadStep st t ps d tb est fi fc = (st, none) := by
        rw [downloadStep, if_neg (by simp [hpos])]
      rw [hpe, hds]
      exact ⟨rfl, statusThrottle_lastProgress st t⟩
    · have hds : downloadStep st t ps d tb est fi fc =
          smoothProgressUpdate st t (derivePercent ps d (pyTotal tb est) fi fc).trunc := by
        rw [downloadStep, if_pos hpos]
      rcases smoothProgressUpdate_spec st t
          (derivePercent ps d (pyTotal tb est) fi fc).trunc
          (trunc_nonneg hpos) (trunc_le_100 hpos hb) h100 with
        ⟨hem, hlp⟩ | ⟨hem, hge, hle⟩
      · left
        rw [hpe, hds]
        refine ⟨by rw [hem]; rfl, ?_⟩
        rw [statusThrottle_lastProgress, hlp]
      · right
        rw [hpe, hds]
        refine ⟨?_, ?_, ?_⟩
        · rw [hem, statusThrottle_lastProgress]
          rfl
        · rw [statusThrottle_lastProgress]
          exact hge
        · rw [statusThrottle_lastProgress]
          exact hle

lemma processEvents_downloading_spec :
    ∀ (evs : List (PyFloat × RawEvent)) (st : ProgState),
      (∀ q ∈ evs, isDownloadingEvent q.2 = true ∧ eventPercentLe100 q.2 = true) →
      st.lastProgress ≤ 100 →
      st.lastProgress ≤ (processEvents st evs).1.lastProgress ∧
      (processEvents st evs).1.lastProgress ≤ 100 ∧
      nonDecrFrom st.lastProgress (processEvents st evs).2 = true ∧
      (∀ v ∈ (processEvents st evs).2, v ≤ (processEvents st evs).1.lastProgress)
  | [], st, _, h100 => by
    refine ⟨le_refl _, h100, rfl, ?_⟩
    intro v hv
    simp [processEvents] at hv
  | (t, ev) :: rest, st, hall, h100 => by
    have hhd := hall (t, ev) (List.mem_cons_self _ _)
    have hspec := processEvent_downloading_spec st t ev hhd.1 hhd.2 h100
    have hcons : processEvents st ((t, ev) :: rest) =
        ((processEvents (processEvent st t ev).1 rest).1,
          (processEvent st t ev).2 ++ (processEvents (processEvent st t ev).1 rest).2) :=
      rfl
    rcases hspec with ⟨hem, hlp⟩ | ⟨hem, hge, hle⟩
    · have hih := processEvents_downloading_spec rest (processEvent st t ev).1
        (fun q hq => hall q (List.mem_cons_of_mem _ hq)) (by rw [hlp]; exact h100)
      rw [hcons]
      refine ⟨?_, ?_, ?_, ?_⟩
      · show st.lastProgress ≤
          (processEvents (processEvent st t ev).1 rest).1.lastProgress
        rw [← hlp]
        exact hih.1
      · show (processEvents (processEvent st t ev).1 rest).1.lastProgress ≤ 100
        exact hih.2.1
      · show nonDecrFrom st.lastProgress
          ((processEvent st t ev).2 ++ (processEvents (processEvent st t ev).1 rest).2) =
            true
        rw [hem, List.nil_append, ← hlp]
        exact hih.2.2.1
      · intro v hv
        show v ≤ (processEvents (processEvent st t ev).1 rest).1.lastProgress
        rw [hem, List.nil_append] at hv
        exact hih.2.2.2 v hv
    · have hih := processEvents_downloading_spec rest (processEvent st t ev).1
        (fun q hq => hall q (List.mem_cons_of_mem _ hq)) hle
      rw [hcons]
      refine ⟨?_, ?_, ?_, ?_⟩
      · show st.lastProgress ≤
          (processEvents (processEvent st t ev).1 rest).1.lastProgress
        exact le_trans hge hih.1
      · show (processEvents (processEvent st t ev).1 rest).1.lastProgress ≤ 100
        exact hih.2.1
      · show nonDecrFrom st.lastProgress
          ((processEvent st t ev).2 ++ (processEvents (processEvent st t ev).1 rest).2) =
            true
        rw [hem, List.cons_append, List.nil_append]
        simp only [nonDecrFrom, Bool.and_eq_true, decide_eq_true_eq]
        exact ⟨hge, hih.2.2.1⟩
      · intro v hv
        show v ≤ (processEvents (processEvent st t ev).1 rest).1.lastProgress
        rw [hem, List.cons_append, List.nil_append] at hv
        rcases List.mem_cons.mp hv with hv | hv
        · subst hv
          exact hih.1
        · exact hih.2.2.2 v hv

lemma processEvents_nonDownloading :
    ∀ (fs : List (PyFloat × RawEvent)),
      (∀ q ∈ fs, isDownloadingEvent q.2 = false) →
      ∀ st : ProgState, (processEvents st fs).1 = st ∧
        ∀ v ∈ (processEvents st fs).2, v = 100
  | [], _, st => ⟨rfl, by intro v hv; simp [processEvents] at hv⟩
  | (t, ev) :: rest, hall, st => by
    have hhd := hall (t, ev) (List.mem_cons_self _ _)
    have hone : processEvent st t ev = (st, (processEvent st t ev).2) ∧
        ∀ v ∈ (processEvent st t ev).2, v = 100 := by
      match ev, hhd with
      | .finished, _ =>
        exact ⟨rfl, by intro v hv; simpa [processEvent] using hv⟩
      | .otherStatus, _ =>
        exact ⟨rfl, by intro v hv; simp [processEvent] at hv⟩
    have hih := processEvents_nonDownloading rest
      (fun q hq => hall q (List.mem_cons_of_mem _ hq)) (processEvent st t ev).1
    have hst : (processEvent st t ev).1 = st := congrArg Prod.fst hone.1
    constructor
    · show (processEvents (processEvent st t ev).1 rest).1 = st
      rw [hst] at hih ⊢
      exact hih.1
    · intro v hv
      simp only [processEvents, List.mem_append] at hv
      rcases hv with hv | hv
      · exact hone.2 v hv
      · exact hih.2 v hv

lemma nonDecrFrom_ge :
    ∀ (lo : Int) (l : List Int), nonDecrFrom lo l = true → ∀ v ∈ l, lo ≤ v
  | _, [], _, v, hv => by simp at hv
  | lo, a :: rest, h, v, hv => by
    simp only [nonDecrFrom, Bool.and_eq_true, decide_eq_true_eq] at h
    rcases List.mem_cons.mp hv with hv | hv
    · subst hv; exact h.1
    · exact le_trans h.1 (nonDecrFrom_ge a rest h.2 v hv)

lemma nonDecrFrom_nonDecr :
    ∀ (lo : Int) (l : List Int), nonDecrFrom lo l = true → nonDecr l = true
  | _, [], _ => rfl
  | _, [_], _ => rfl
  | lo, a :: b :: rest, h => by
    simp only [nonDecrFrom, Bool.and_eq_true, decide_eq_true_eq] at h
    have hr := nonDecrFrom_nonDecr a (b :: rest) (by
      simp only [nonDecrFrom, Bool.and_eq_true, decide_eq_true_eq]
      exact h.2)
    simp only [nonDecr, Bool.and_eq_true, decide_eq_true_eq]
    exact ⟨h.2.1, hr⟩

lemma nonDecrFrom_all100 :
    ∀ (lo : Int) (l : List Int), lo ≤ 100 → (∀ v ∈ l, v = (100 : Int)) →
      nonDecrFrom lo l = true
  | _, [], _, _ => rfl
  | lo, a :: rest, hlo, hall => by
    have ha : a = 100 := hall a (List.mem_cons_self _ _)
    simp only [nonDecrFrom, Bool.and_eq_true, decide_eq_true_eq]
    refine ⟨by omega, ?_⟩
    exact nonDecrFrom_all100 a rest (by omega)
      (fun v hv => hall v (List.mem_cons_of_mem _ hv))

lemma nonDecrFrom_append_100 :
    ∀ (lo : Int) (xs : List Int), nonDecrFrom lo xs = true → (∀ v ∈ xs, v ≤ 100) →
      lo ≤ 100 → ∀ ys, (∀ v ∈ ys, v = (100 : Int)) →
      nonDecrFrom lo (xs ++ ys) = true
  | lo, [], _, _, hlo, ys, hys => nonDecrFrom_all100 lo ys hlo hys
  | lo, a :: xs, h, hle, hlo, ys, hys => by
    simp only [nonDecrFrom, Bool.and_eq_true, decide_eq_true_eq] at h
    simp only [List.cons_append, nonDecrFrom, Bool.and_eq_true, decide_eq_true_eq]
    refine ⟨h.1, ?_⟩
    exact nonDecrFrom_append_100 a xs h.2
      (fun v hv => hle v (List.mem_cons_of_mem _ hv))
      (hle a (List.mem_cons_self _ _)) ys hys

lemma processEvents_append :
    ∀ (a b : List (PyFloat × RawEvent)) (st : ProgState),
      processEvents st (a ++ b) =
        ((processEvents (processEvents st a).1 b).1,
          (processEvents st a).2 ++ (processEvents (processEvents st a).1 b).2)
  | [], b, st => by simp [processEvents]
  | (t, ev) :: a, b, st => by
    have hih := processEvents_append a b (processEvent st t ev).1
    have h1 : processEvents st (((t, ev) :: a) ++ b) =
        ((processEvents (processEvent st t ev).1 (a ++ b)).1,
          (processEvent st t ev).2 ++
            (processEvents (processEvent st t ev).1 (a ++ b)).2) := rfl
    have h2 : processEvents st ((t, ev) :: a) =
        ((processEvents (processEvent st t ev).1 a).1,
          (processEvent st t ev).2 ++
            (processEvents (processEvent st t ev).1 a).2) := rfl
    rw [h1, hih, h2]
    simp [List.append_assoc]

/-- C4 counterexample: one job processes a `downloading` event whose only
size information is `total_bytes_estimate = 200` with
`downloaded_bytes = 300` (the download overran the estimate), then the
`finished` event.  The hook derives `300/200*100 = 150` and emits it, then
`finished` emits 100: the emitted sequence is `[150, 100]` — not within
`[0, 100]` and not non-decreasing — refuting the claim as stated. -/
theorem progressEmissions_counterexample :
    (processEvents initProgState
      [(⟨1, 1⟩, .downloading none 300 none 200 0 0 none),
       (⟨2, 1⟩, .finished)]).2 = [150, 100] ∧
    allInRange
      (processEvents initProgState
        [(⟨1, 1⟩, .downloading none 300 none 200 0 0 none),
         (⟨2, 1⟩, .finished)]).2 = false ∧
    nonDecr
      (processEvents initProgState
        [(⟨1, 1⟩, .downloading none 300 none 200 0 0 none),
         (⟨2, 1⟩, .finished)]).2 = false := by
  refine ⟨by decide, by decide, by decide⟩

/-- C4 (amended): within one job started from the reset state, provided
every `downloading` event's derived percent is at most 100 (true whenever
downloaded bytes do not exceed the — possibly estimated — total, percent
strings stay within 100%, and fragment counters satisfy
`index ≤ count`) and no `downloading` event is processed after a
`finished` event, the sequence of percents emitted through the progress
signal is non-decreasing and every emitted value lies in `[0, 100]`. -/
theorem progressEmissions_amended (ds fs : List (PyFloat × RawEvent))
    (hd : ∀ q ∈ ds, isDownloadingEvent q.2 = true ∧ eventPercentLe100 q.2 = true)
    (hf : ∀ q ∈ fs, isDownloadingEvent q.2 = false) :
    nonDecr (processEvents initProgState (ds ++ fs)).2 = true ∧
    allInRange (processEvents initProgState (ds ++ fs)).2 = true := by
  have hphase1 := processEvents_downloading_spec ds initProgState hd (by decide)
  have happ := processEvents_append ds fs initProgState
  have hphase2 := processEvents_nonDownloading fs hf (processEvents initProgState ds).1
  have hle100 : ∀ v ∈ (processEvents initProgState ds).2, v ≤ 100 :=
    fun v hv => le_trans (hphase1.2.2.2 v hv) hphase1.2.1
  have hinit : initProgState.lastProgress = 0 := rfl
  have hnd : nonDecrFrom 0 (processEvents initProgState (ds ++ fs)).2 = true := by
    rw [happ]
    show nonDecrFrom 0 ((processEvents initProgState ds).2 ++
      (processEvents (processEvents initProgState ds).1 fs).2) = true
    refine nonDecrFrom_append_100 0 _ ?_ hle100 (by omega) _ hphase2.2
    rw [← hinit]
    exact hphase1.2.2.1
  refine ⟨nonDecrFrom_nonDecr 0 _ hnd, ?_⟩
  rw [allInRange, List.all_eq_true]
  intro v hv
  have hsplit : v ∈ (processEvents initProgState ds).2 ∨
      v ∈ (processEvents (processEvents initProgState ds).1 fs).2 := by
    rw [happ] at hv
    exact List.mem_append.mp hv
  have hrange : 0 ≤ v ∧ v ≤ 100 := by
    rcases hsplit with hv1 | hv1
    · refine ⟨?_, hle100 v hv1⟩
      have := nonDecrFrom_ge 0 _ (by rw [← hinit]; exact hphase1.2.2.1) v hv1
      omega
    · have := hphase2.2 v hv1
      omega
  simp [hrange.1, hrange.2]

/-- C4 witness: the amended theorem applied to a concrete event sequence —
a half-done downloading event (50 of 100 bytes) followed by `finished`. -/
theorem progressEmissions_amended_witness :
    nonDecr (processEvents initProgState
      ([(⟨1, 1⟩, .downloading none 50 (some 100) 0 0 0 none)] ++
        [(⟨2, 1⟩, .finished)])).2 = true ∧
    allInRange (processEvents initProgState
      ([(⟨1, 1⟩, .downloading none 50 (some 100) 0 0 0 none)] ++
        [(⟨2, 1⟩, .finished)])).2 = true :=
  progressEmissions_amended
    [(⟨1, 1⟩, .downloading none 50 (some 100) 0 0 0 none)]
    [(⟨2, 1⟩, .finished)] (by decide) (by decide)

/-! ## Witnesses for the remaining hypothesised theorems -/

/-- C2 witness: the retry theorem applied to a run whose first two
attempts fail with an "ffprobe" message — three attempts are made, with a
status line before each retry. -/
theorem downloadWorker_retryPolicy_witness :
    downloadSingleRetry (fun k => if k < 2
      then DownloadResult.failureResult "ffprobe exited with code 1"
      else DownloadResult.failureResult "Download failed: network") =
      (DownloadResult.failureResult "Download failed: network", 3,
        [retryStatus 1, retryStatus 2]) := by
  rw [(downloadWorker_retryPolicy (fun k => if k < 2
      then DownloadResult.failureResult "ffprobe exited with code 1"
      else DownloadResult.failureResult "Download failed: network")).2.2.2.2.1
    (by decide) (by decide)]
  decide

/-- C7 witness: the totality theorem applied to a raised
`DownloadCancelled`. -/
theorem audioDownload_total_witness :
    audioDownloaderDownload (.raiseExc "DownloadCancelled" "stop") =
      .ok (DownloadResult.failureResult "Download cancelled by user") :=
  (audioDownload_total (.raiseExc "DownloadCancelled" "stop")).2.2.2.1 "stop"

/-- C8 witness: the pre-check theorem applied to an empty playlist. -/
theorem downloadPlaylist_preChecks_witness :
    downloadPlaylist "u" (some ⟨some "playlist", some "T", []⟩)
      (fun _ => .ok none) (fun _ => false) false =
      ([DownloadResult.failureResult "Playlist is empty"], []) :=
  downloadPlaylist_preChecks.2.2.1 "u" ⟨some "playlist", some "T", []⟩
    (fun _ => .ok none) (fun _ => false) false rfl rfl
